import Mathlib

/-
Verification of the cfplot event-timeline core (src/cfplot.py).

Shallow embedding notes:
* Timestamps are modelled as `Int` (seconds).  Python `timedelta` subtraction of
  datetimes is exact integer arithmetic at this granularity; the `.seconds`
  accessor of a timedelta is its seconds-of-day component, modelled by
  `tdSeconds` below (floor-mod 86400, which is what Python's timedelta
  normalisation produces).
* The external CloudFormation event source (`boto3` paginator behind
  `describe_stack_events`) is modelled as a finite association list
  `db : List (String × List RawEvent)`; a stack name absent from `db`
  corresponds to the fetch raising (which the parent catches for nested
  stacks).  `profile`/`region` are pure pass-through configuration and are
  omitted.
* Python dictionaries are modelled as association lists with
  `dictInsert`/`lookupD` (update-in-place keeps the original position, which
  matches Python dict semantics); the nested dict `data[stack][logical_id]`
  is keyed here by the pair `(stack, logical_id)` — the code only ever reads
  it through exactly that pair of lookups.
* The recursion of `retrieve_cf_events` is general recursion in Python; it is
  embedded with an explicit fuel parameter (`none` = fuel exhausted, a model
  artefact).  Termination of the real code corresponds to the theorem that a
  computable fuel bound is always sufficient.
-/

/-- One CloudFormation stack event, with the fields the code reads.
`ResourceStatusReason` is optional (`event.get("ResourceStatusReason", "")`). -/
structure RawEvent where
  StackName : String
  LogicalResourceId : String
  PhysicalResourceId : String
  ResourceType : String
  ResourceStatus : String
  ResourceStatusReason : Option String
  Timestamp : Int
deriving DecidableEq, Repr

/-- The external event source: stack name to its raw events (in fetch order).
A missing key models the transport raising for that stack name. -/
abbrev DB := List (String × List RawEvent)

/-- Result of one `retrieve_cf_events` call.
`events = none` models the call raising (caught by the parent's `try`);
`processed` is the shared mutated `processed_stacks` set (as a list);
`trace` records the stack names actually fetched, in fetch order
(instrumentation used to state the at-most-one-fetch properties). -/
structure CollectOut where
  events : Option (List RawEvent)
  processed : List String
  trace : List String
deriving DecidableEq, Repr

/-- Per-(stack, logical id) timing record, the dict initialised in
`update_data_for_event` (field `end` of the source is `end_` here because
`end` is a Lean keyword). -/
structure ResourceData where
  identified : Option Int
  start : Option Int
  end_ : Option Int
  duration : Option Int
  duration_i2s : Option Int
  duration_s2e : Option Int
deriving DecidableEq, Repr

/-- The fresh record created on first sight of a resource: all fields None. -/
def emptyResourceData : ResourceData :=
  { identified := none
    start := none
    end_ := none
    duration := none
    duration_i2s := none
    duration_s2e := none }

/-- The timing data structure, keyed by (StackName, LogicalResourceId). -/
abbrev Data := List ((String × String) × ResourceData)

/-- The fields of the waterfall trace dict built by `construct_event_trace`
that carry program meaning (the remaining fields are fixed fonts/colors).
`x` is the list of bar-segment widths pushed by `update_trace`. -/
structure TraceOut where
  StackName : String
  LogicalResourceId : String
  resource_category : String
  base : Int
  x : List Int
deriving DecidableEq, Repr

/-- Python dict lookup. -/
def lookupD [DecidableEq α] (a : α) : List (α × β) → Option β
  | [] => none
  | (k, v) :: rest => if a = k then some v else lookupD a rest

/-- Python dict assignment `d[k] = v`: updates in place if the key exists
(keeping its position), otherwise appends. -/
def dictInsert [DecidableEq α] (k : α) (v : β) : List (α × β) → List (α × β)
  | [] => [(k, v)]
  | (k', v') :: rest => if k' = k then (k, v) :: rest else (k', v') :: dictInsert k v rest

/-- Stable insertion of an event into a timestamp-ascending list: the new
element goes after all elements with Timestamp ≤ its own. -/
def insertByTimestamp (e : RawEvent) : List RawEvent → List RawEvent
  | [] => [e]
  | x :: xs => if x.Timestamp ≤ e.Timestamp then x :: insertByTimestamp e xs else e :: x :: xs

/-- `all_events.sort(key=lambda x: x["Timestamp"])`: a stable sort by
timestamp (Python's sort is stable; a stable insertion sort built
left-to-right agrees with it). -/
def sortByTimestamp (events : List RawEvent) : List RawEvent :=
  events.foldl (fun acc e => insertByTimestamp e acc) []

/-- Stable insertion for the nested-stack registry, ordered by creation time. -/
def insertNestedByTime (p : String × Int) : List (String × Int) → List (String × Int)
  | [] => [p]
  | q :: qs => if q.2 ≤ p.2 then q :: insertNestedByTime p qs else p :: q :: qs

/-- `sorted(nested_stacks.items(), key=lambda x: x[1])` (stable). -/
def sortNestedByTime (l : List (String × Int)) : List (String × Int) :=
  l.foldl (fun acc p => insertNestedByTime p acc) []

/-- Python `timedelta.seconds` of an integer-second timedelta: timedelta
normalisation stores `days = d // 86400` and `seconds = d % 86400`
(floor division), so `.seconds` is the floor-mod by 86400. -/
def tdSeconds (d : Int) : Int := d % 86400

/-- Python `s.startswith(p)`: the characters of `p` lead those of `s`.
(Defined over the character lists so that it evaluates by kernel reduction;
`String.startsWith` itself is an unreducible runtime primitive.) -/
def strStartsWith (s p : String) : Bool := s.data.take p.data.length == p.data

/-- Python `str.lower()` for one character, on the ASCII range the status
reasons use. -/
def pyLowerChar (c : Char) : Char :=
  if 'A' ≤ c ∧ c ≤ 'Z' then Char.ofNat (c.toNat + 32) else c

/-- Python `str.lower()` (ASCII; every status-reason string compared by the
code is ASCII). -/
def pyLower (s : String) : String := ⟨s.data.map pyLowerChar⟩

/-- `compute_resources` set from `get_resource_category` (a Python set;
only membership via `any(startswith)` is used, which is order-independent). -/
def compute_resources : List String := ["AWS::EC2::", "AWS::Lambda::", "AWS::AutoScaling::"]

/-- `storage_resources` set from `get_resource_category`. -/
def storage_resources : List String := ["AWS::S3::", "AWS::EFS::", "AWS::DynamoDB::", "AWS::RDS::"]

/-- `network_resources` set from `get_resource_category`. -/
def network_resources : List String :=
  ["AWS::EC2::VPC", "AWS::EC2::Subnet", "AWS::EC2::RouteTable",
   "AWS::EC2::SecurityGroup", "AWS::ElasticLoadBalancing::"]

/-- `security_resources` set from `get_resource_category`. -/
def security_resources : List String := ["AWS::IAM::", "AWS::KMS::", "AWS::SecretsManager::"]

/-- `get_resource_category`: first-match over the four buckets, checked in
the order compute, storage, network, security; unmatched types are "other". -/
def get_resource_category (resource_type : String) : String :=
  if compute_resources.any (fun r => strStartsWith resource_type r) then "compute"
  else if storage_resources.any (fun r => strStartsWith resource_type r) then "storage"
  else if network_resources.any (fun r => strStartsWith resource_type r) then "network"
  else if security_resources.any (fun r => strStartsWith resource_type r) then "security"
  else "other"

/-- `start_event` in `get_stack_creation_events`: the first (time-sorted)
event with status CREATE_IN_PROGRESS, stack resource type, and status
reason exactly "User Initiated". -/
def find_start_event (raw : List RawEvent) : Option RawEvent :=
  (sortByTimestamp raw).find? fun e =>
    decide (e.ResourceStatus = "CREATE_IN_PROGRESS" ∧
            e.ResourceType = "AWS::CloudFormation::Stack" ∧
            e.ResourceStatusReason.getD "" = "User Initiated")

/-- `stack_logical_id`: the logical id of the first stack-typed event,
falling back to the trailing path segment of the stack name. -/
def find_stack_logical_id (stackname : String) (raw : List RawEvent) : String :=
  match (sortByTimestamp raw).find?
      (fun e => decide (e.ResourceType = "AWS::CloudFormation::Stack")) with
  | some e => e.LogicalResourceId
  | none => (stackname.splitOn "/").getLastD ""

/-- `complete_event`: the first CREATE_COMPLETE stack-typed event whose
logical id matches `stack_logical_id`. -/
def find_complete_event (stackname : String) (raw : List RawEvent) : Option RawEvent :=
  (sortByTimestamp raw).find? fun e =>
    decide (e.ResourceStatus = "CREATE_COMPLETE" ∧
            e.ResourceType = "AWS::CloudFormation::Stack" ∧
            e.LogicalResourceId = find_stack_logical_id stackname raw)

/-- One iteration of the scan in `get_stack_creation_events`: keep the event
if its timestamp lies in `[start_time, complete_time]`, and register it as a
nested stack when it is a stack-typed CREATE_IN_PROGRESS whose physical id is
non-empty and differs from the current stack name. -/
def keep_step (stackname : String) (start_time complete_time : Int)
    (st : List RawEvent × List (String × Int)) (e : RawEvent) :
    List RawEvent × List (String × Int) :=
  if start_time ≤ e.Timestamp ∧ e.Timestamp ≤ complete_time then
    (st.1 ++ [e],
     if e.ResourceType = "AWS::CloudFormation::Stack" ∧
        e.PhysicalResourceId ≠ stackname ∧
        e.ResourceStatus = "CREATE_IN_PROGRESS" ∧
        e.PhysicalResourceId ≠ "" then
       dictInsert e.PhysicalResourceId e.Timestamp st.2
     else st.2)
  else st

/-- The full scan loop of `get_stack_creation_events`. -/
def keep_and_register (stackname : String) (start_time complete_time : Int)
    (all_events : List RawEvent) : List RawEvent × List (String × Int) :=
  all_events.foldl (keep_step stackname start_time complete_time) ([], [])

/-- `get_stack_creation_events(stackname, cf_client)` given the raw events the
paginator returned for `stackname`: sorts, finds the start/complete window,
and returns (kept creation events, nested-stack registry, complete time);
`([], [], none)` when either window event is missing. -/
def get_stack_creation_events (stackname : String) (raw : List RawEvent) :
    List RawEvent × List (String × Int) × Option Int :=
  match find_start_event raw, find_complete_event stackname raw with
  | some start_event, some complete_event =>
    ((keep_and_register stackname start_event.Timestamp complete_event.Timestamp
        (sortByTimestamp raw)).1,
     (keep_and_register stackname start_event.Timestamp complete_event.Timestamp
        (sortByTimestamp raw)).2,
     some complete_event.Timestamp)
  | _, _ => ([], [], none)

/-- The `for nested_stack, creation_time in sorted(...)` loop of
`retrieve_cf_events`: recurse into each nested stack created no later than
`complete_time`; a raising recursive call (`events = none`) is caught and
contributes zero events, but its `processed`/`trace` state persists (the
Python set is mutated in place). -/
def nestedLoop (recur : String → List String → Option CollectOut) (complete_time : Int) :
    List (String × Int) → List RawEvent → List String → List String → Option CollectOut
  | [], all_events, processed, trace => some ⟨some all_events, processed, trace⟩
  | (nested_stack, creation_time) :: rest, all_events, processed, trace =>
    if nested_stack ≠ "" ∧ creation_time ≤ complete_time then
      match recur nested_stack processed with
      | none => none
      | some out =>
        nestedLoop recur complete_time rest (all_events ++ out.events.getD [])
          out.processed (trace ++ out.trace)
    else
      nestedLoop recur complete_time rest all_events processed trace

/-- `retrieve_cf_events(stackname, profile, region, root_complete_time,
processed_stacks)` with an explicit fuel for the general recursion.
Empty name or already-processed name: soft empty return.  The name is added
to `processed` before the fetch; a fetch miss (`db` has no such stack) models
the transport raising.  The effective completion time is
`root_complete_time or stack_complete_time`; without one, soft empty return.
Nested stacks are visited in ascending creation time. -/
def retrieve_cf_events (db : DB) :
    Nat → String → Option Int → List String → Option CollectOut
  | 0, _, _, _ => none
  | fuel+1, stackname, root_complete_time, processed_stacks =>
    if stackname = "" then some ⟨some [], processed_stacks, []⟩
    else if stackname ∈ processed_stacks then some ⟨some [], processed_stacks, []⟩
    else
      match lookupD stackname db with
      | none => some ⟨none, stackname :: processed_stacks, [stackname]⟩
      | some raw =>
        match root_complete_time.orElse
            (fun _ => (get_stack_creation_events stackname raw).2.2) with
        | none => some ⟨some [], stackname :: processed_stacks, [stackname]⟩
        | some complete_time =>
          nestedLoop
            (fun nested_stack procd =>
              retrieve_cf_events db fuel nested_stack (some complete_time) procd)
            complete_time
            (sortNestedByTime (get_stack_creation_events stackname raw).2.1)
            (get_stack_creation_events stackname raw).1
            (stackname :: processed_stacks) [stackname]

/-- Number of stacks the event source knows that are not yet processed: the
fuel bound sufficient for `retrieve_cf_events` to terminate. -/
def remaining (db : DB) (processed : List String) : Nat :=
  ((db.map Prod.fst).filter (fun k => decide (k ∉ processed))).length

/-- The per-record state transition of `update_data_for_event`, as a function
of (status, lower-cased reason, timestamp).  In the CREATE_COMPLETE branch the
source first sets `end` and then tests `identified and start and end`;
datetimes are always truthy in Python, and `end` was just assigned, so the
test is exactly `identified` and `start` being set. -/
def apply_event_to_record (resource_status resource_status_reason : String)
    (timestamp : Int) (resource_data : ResourceData) : ResourceData :=
  if resource_status = "CREATE_IN_PROGRESS" then
    if resource_status_reason = "user initiated" then
      { resource_data with identified := some timestamp, start := some timestamp }
    else if resource_status_reason = "resource creation initiated" then
      { resource_data with
          identified := if resource_data.identified = none then some timestamp
                        else resource_data.identified
          start := some timestamp }
    else if resource_data.identified = none then
      { resource_data with identified := some timestamp }
    else resource_data
  else if resource_status = "CREATE_COMPLETE" then
    match resource_data.identified, resource_data.start with
    | some i, some s =>
      { resource_data with
          end_ := some timestamp
          duration_i2s := some (s - i)
          duration_s2e := some (timestamp - s)
          duration := some (timestamp - i) }
    | _, _ => { resource_data with end_ := some timestamp }
  else resource_data

/-- `update_data_for_event(event, data)`: create the record on demand and
apply the transition; `resource_status_reason` is
`event.get("ResourceStatusReason", "").lower()`. -/
def update_data_for_event (event : RawEvent) (data : Data) : Data :=
  dictInsert (event.StackName, event.LogicalResourceId)
    (apply_event_to_record event.ResourceStatus
      (pyLower (event.ResourceStatusReason.getD ""))
      event.Timestamp
      ((lookupD (event.StackName, event.LogicalResourceId) data).getD emptyResourceData))
    data

/-- `construct_event_trace(start_time, data, event)` with `is_total=False`
(as called from `process_events`), restricted to the meaningful trace fields:
`base = (data["identified"] - start_time).seconds`, and the `x` widths pushed
by `update_trace`: the waiting segment `duration_i2s.seconds` when positive,
then the active segment `duration_s2e.seconds`.  Callers guarantee the record
is fully timed, so the `getD 0` defaults are never taken on the call sites
modelled here. -/
def construct_event_trace (start_time : Int) (rd : ResourceData) (event : RawEvent) :
    TraceOut :=
  { StackName := event.StackName
    LogicalResourceId := event.LogicalResourceId
    resource_category := get_resource_category event.ResourceType
    base := tdSeconds (rd.identified.getD 0 - start_time)
    x := (if tdSeconds (rd.duration_i2s.getD 0) > 0 then [tdSeconds (rd.duration_i2s.getD 0)]
          else []) ++ [tdSeconds (rd.duration_s2e.getD 0)] }

/-- One iteration of the second pass of `process_events`: emit a trace for a
CREATE_COMPLETE event whose record is fully timed, unless its
`f"{stack_name}/{logical_id}"` identifier was already emitted or the event is
the root stack's self-descriptor (stack-typed with StackName equal to
LogicalResourceId). -/
def process_step (data : Data) (start_time : Int)
    (st : List String × List TraceOut) (event : RawEvent) :
    List String × List TraceOut :=
  match lookupD (event.StackName, event.LogicalResourceId) data with
  | none => st
  | some rd =>
    if event.ResourceStatus = "CREATE_COMPLETE" ∧ rd.duration ≠ none then
      if (event.StackName ++ "/" ++ event.LogicalResourceId) ∈ st.1 then st
      else if event.ResourceType = "AWS::CloudFormation::Stack" ∧
              event.StackName = event.LogicalResourceId then st
      else ((event.StackName ++ "/" ++ event.LogicalResourceId) :: st.1,
            st.2 ++ [construct_event_trace start_time rd event])
    else st

/-- `process_events(events, start_time, data, fig)`: first pass folds
`update_data_for_event` over all events; second pass emits the waterfall
traces in event order, guarded by the `processed_stacks` identifier set. -/
def process_events (events : List RawEvent) (start_time : Int) (data0 : Data) :
    List TraceOut :=
  (events.foldl
    (process_step (events.foldl (fun d e => update_data_for_event e d) data0) start_time)
    ([], [])).2

/-- The spec's duration invariant on a record: the three duration fields are
unset together, or set together with `duration = duration_i2s + duration_s2e`. -/
def durationInvariant (rd : ResourceData) : Prop :=
  (rd.duration = none ∧ rd.duration_i2s = none ∧ rd.duration_s2e = none) ∨
  (∃ a b, rd.duration_i2s = some a ∧ rd.duration_s2e = some b ∧ rd.duration = some (a + b))

/-- Whether an emitted trace belongs to the (unit, logical id) pair (s, l). -/
def traceForPair (s l : String) (t : TraceOut) : Bool :=
  decide (t.StackName = s ∧ t.LogicalResourceId = l)

/-- Shorthand constructor for concrete events used in witnesses and
counterexamples. -/
def mkEvent (s l p ty st : String) (r : Option String) (t : Int) : RawEvent :=
  ⟨s, l, p, ty, st, r, t⟩

/-- Parent stack P: User-Initiated start at 0, nested stack C registered at 1,
complete at 10. -/
def eP1 : RawEvent :=
  mkEvent "P" "P" "P" "AWS::CloudFormation::Stack" "CREATE_IN_PROGRESS" (some "User Initiated") 0

/-- Parent stack P: the nested stack C's CREATE_IN_PROGRESS inside P's window. -/
def eP2 : RawEvent :=
  mkEvent "P" "Child" "C" "AWS::CloudFormation::Stack" "CREATE_IN_PROGRESS" none 1

/-- Parent stack P: CREATE_COMPLETE at 10, P's local completion. -/
def eP3 : RawEvent :=
  mkEvent "P" "P" "P" "AWS::CloudFormation::Stack" "CREATE_COMPLETE" none 10

/-- Nested stack C: its own User-Initiated start at 2. -/
def fC1 : RawEvent :=
  mkEvent "C" "Child" "C" "AWS::CloudFormation::Stack" "CREATE_IN_PROGRESS" (some "User Initiated") 2

/-- Nested stack C: completes at 50, long after parent P completed at 10. -/
def fC2 : RawEvent :=
  mkEvent "C" "Child" "C" "AWS::CloudFormation::Stack" "CREATE_COMPLETE" none 50

/-- Event source with a nested stack C that outlives its parent P. -/
def dbPC : DB := [("P", [eP1, eP2, eP3]), ("C", [fC1, fC2])]

/-- Stack S: User-Initiated start at 0. -/
def gS1 : RawEvent :=
  mkEvent "S" "S" "S" "AWS::CloudFormation::Stack" "CREATE_IN_PROGRESS" (some "User Initiated") 0

/-- Stack S: locally discovered CREATE_COMPLETE at 10. -/
def gS2 : RawEvent :=
  mkEvent "S" "S" "S" "AWS::CloudFormation::Stack" "CREATE_COMPLETE" none 10

/-- Stack S: a member-resource event at 15, after S's local completion but
before a caller-supplied root completion of 20. -/
def gS3 : RawEvent :=
  mkEvent "S" "Web" "web-1" "AWS::EC2::Instance" "CREATE_IN_PROGRESS" none 15

/-- Event source for the root-completion-window experiment. -/
def dbS : DB := [("S", [gS1, gS2, gS3])]

/-- Scenario A, event 1: generic CREATE_IN_PROGRESS (no reason) at T-2. -/
def c3ev1 (T : Int) : RawEvent :=
  mkEvent "stk" "res" "p1" "AWS::EC2::Instance" "CREATE_IN_PROGRESS" none (T - 2)

/-- Scenario A, event 2: "Resource creation Initiated" at T. -/
def c3ev2 (T : Int) : RawEvent :=
  mkEvent "stk" "res" "p1" "AWS::EC2::Instance" "CREATE_IN_PROGRESS"
    (some "Resource creation Initiated") T

/-- Scenario A, event 3: CREATE_COMPLETE at T+10. -/
def c3ev3 (T : Int) : RawEvent :=
  mkEvent "stk" "res" "p1" "AWS::EC2::Instance" "CREATE_COMPLETE" none (T + 10)

/-- Root self-descriptor kickoff at time 0 for the base-offset run. -/
def c9r1 : RawEvent :=
  mkEvent "root" "root" "root-id" "AWS::CloudFormation::Stack" "CREATE_IN_PROGRESS"
    (some "User Initiated") 0

/-- Resource Web first observed 1 day + 5 s after the run started. -/
def c9r2 : RawEvent :=
  mkEvent "root" "Web" "w" "AWS::EC2::Instance" "CREATE_IN_PROGRESS" none 86405

/-- Resource Web starts actual creation at 86410. -/
def c9r3 : RawEvent :=
  mkEvent "root" "Web" "w" "AWS::EC2::Instance" "CREATE_IN_PROGRESS"
    (some "Resource creation Initiated") 86410

/-- Resource Web completes at 86420. -/
def c9r4 : RawEvent :=
  mkEvent "root" "Web" "w" "AWS::EC2::Instance" "CREATE_COMPLETE" none 86420

/-- The event list for the base-offset (one-day elapsed) run. -/
def c9events : List RawEvent := [c9r1, c9r2, c9r3, c9r4]

/-- Cyclic references: stack A registers nested B. -/
def cycA1 : RawEvent :=
  mkEvent "A" "A" "A" "AWS::CloudFormation::Stack" "CREATE_IN_PROGRESS" (some "User Initiated") 0

/-- Stack A's event registering nested stack B at time 1. -/
def cycA2 : RawEvent :=
  mkEvent "A" "BRef" "B" "AWS::CloudFormation::Stack" "CREATE_IN_PROGRESS" none 1

/-- Stack A completes at 10. -/
def cycA3 : RawEvent :=
  mkEvent "A" "A" "A" "AWS::CloudFormation::Stack" "CREATE_COMPLETE" none 10

/-- Stack B's own start at 2. -/
def cycB1 : RawEvent :=
  mkEvent "B" "B" "B" "AWS::CloudFormation::Stack" "CREATE_IN_PROGRESS" (some "User Initiated") 2

/-- Stack B's event registering nested stack A at time 3 — a reference cycle. -/
def cycB2 : RawEvent :=
  mkEvent "B" "ARef" "A" "AWS::CloudFormation::Stack" "CREATE_IN_PROGRESS" none 3

/-- Stack B completes at 9. -/
def cycB3 : RawEvent :=
  mkEvent "B" "B" "B" "AWS::CloudFormation::Stack" "CREATE_COMPLETE" none 9

/-- Event source where A and B reference each other (a cycle). -/
def dbCyc : DB := [("A", [cycA1, cycA2, cycA3]), ("B", [cycB1, cycB2, cycB3])]

/-- Stack W has events but neither a "User Initiated" start nor a matching
complete event: its window is unresolved. -/
def wEv1 : RawEvent :=
  mkEvent "W" "Thing" "t" "AWS::EC2::Instance" "CREATE_IN_PROGRESS" none 0

/-- Event source for the missing-window experiment. -/
def dbW : DB := [("W", [wEv1])]

lemma lookupD_dictInsert [DecidableEq α] (k a : α) (v : β) (l : List (α × β)) :
    lookupD a (dictInsert k v l) = if a = k then some v else lookupD a l := by
  induction l with
  | nil => simp [dictInsert, lookupD]
  | cons p rest ih =>
    obtain ⟨k1, v1⟩ := p
    by_cases h1 : k1 = k
    · subst h1
      by_cases h2 : a = k1 <;> simp [dictInsert, lookupD, h2]
    · by_cases h2 : a = k1
      · subst h2
        simp [dictInsert, h1, lookupD, Ne.symm h1]
      · simp [dictInsert, h1, lookupD, h2, ih]

lemma lookupD_mem_keys [DecidableEq α] (a : α) (l : List (α × β)) (v : β)
    (h : lookupD a l = some v) : a ∈ l.map Prod.fst := by
  induction l with
  | nil => simp [lookupD] at h
  | cons p rest ih =>
    obtain ⟨k, w⟩ := p
    by_cases hk : a = k
    · simp [hk]
    · simp only [lookupD, if_neg hk] at h
      simp [ih h]

lemma length_filter_mono {α : Type} (l : List α) (f g : α → Bool)
    (h : ∀ x, f x = true → g x = true) :
    (l.filter f).length ≤ (l.filter g).length := by
  induction l with
  | nil => simp
  | cons x xs ih =>
    simp only [List.filter_cons]
    cases hf : f x
    · cases hg : g x
      · simpa using ih
      · simp only [if_pos rfl]
        exact ih.trans (Nat.le_succ _)
    · rw [h x hf]
      simpa using Nat.succ_le_succ ih

lemma remaining_mono (db : DB) {p q : List String} (h : p ⊆ q) :
    remaining db q ≤ remaining db p := by
  refine length_filter_mono _ _ _ (fun x hx => ?_)
  simp only [decide_eq_true_eq] at hx ⊢
  exact fun hmem => hx (h hmem)

lemma length_filter_notmem_lt (s : String) (processed : List String)
    (hnot : s ∉ processed) :
    ∀ l : List String, s ∈ l →
      (l.filter (fun k => decide (k ∉ s :: processed))).length <
      (l.filter (fun k => decide (k ∉ processed))).length := by
  intro l
  induction l with
  | nil => intro hmem; cases hmem
  | cons x xs ih =>
    intro hmem
    simp only [List.filter_cons]
    rcases List.mem_cons.mp hmem with hx | hx
    · subst hx
      simp only [decide_eq_true_eq]
      rw [if_neg (by simp : ¬ (s ∉ s :: processed)), if_pos hnot]
      simp only [List.length_cons]
      refine Nat.lt_succ_of_le (length_filter_mono xs _ _ (fun y hy => ?_))
      simp only [decide_eq_true_eq, List.mem_cons] at hy ⊢
      exact fun hmem2 => hy (Or.inr hmem2)
    · have hstep := ih hx
      simp only [decide_eq_true_eq]
      by_cases hx1 : x ∉ s :: processed
      · have hx2 : x ∉ processed := fun hc => hx1 (List.mem_cons_of_mem _ hc)
        rw [if_pos hx1, if_pos hx2]
        simpa using Nat.succ_lt_succ hstep
      · rw [if_neg hx1]
        by_cases hx2 : x ∉ processed
        · rw [if_pos hx2]
          simp only [List.length_cons]
          exact hstep.trans (Nat.lt_succ_self _)
        · rw [if_neg hx2]
          exact hstep

lemma remaining_lt (db : DB) (s : String) (processed : List String)
    (hmem : s ∈ db.map Prod.fst) (hnot : s ∉ processed) :
    remaining db (s :: processed) < remaining db processed :=
  length_filter_notmem_lt s processed hnot (db.map Prod.fst) hmem

lemma nestedLoop_events (recur : String → List String → Option CollectOut) (ct : Int) :
    ∀ (l : List (String × Int)) (acc : List RawEvent) (procd tr : List String)
      (out : CollectOut),
      nestedLoop recur ct l acc procd tr = some out →
      ∃ rest, out.events = some (acc ++ rest) := by
  intro l
  induction l with
  | nil =>
    intro acc procd tr out h
    simp only [nestedLoop, Option.some.injEq] at h
    exact ⟨[], by simp [← h]⟩
  | cons q rest ih =>
    intro acc procd tr out h
    obtain ⟨nm, cts⟩ := q
    simp only [nestedLoop] at h
    split at h
    · cases hr : recur nm procd with
      | none => rw [hr] at h; cases h
      | some out1 =>
        rw [hr] at h
        obtain ⟨r, hrres⟩ := ih _ _ _ _ h
        exact ⟨out1.events.getD [] ++ r, by rw [hrres, List.append_assoc]⟩
    · exact ih _ _ _ _ h

lemma nestedLoop_spec (recur : String → List String → Option CollectOut) (ct : Int)
    (P0 : List String)
    (hrec : ∀ nm procd out, recur nm procd = some out →
      procd ⊆ out.processed ∧ out.trace.Nodup ∧
      ∀ x ∈ out.trace, x ∈ out.processed ∧ x ∉ procd) :
    ∀ (l : List (String × Int)) (acc : List RawEvent) (procd tr : List String)
      (out : CollectOut),
      nestedLoop recur ct l acc procd tr = some out →
      P0 ⊆ procd → tr.Nodup → (∀ x ∈ tr, x ∈ procd) → (∀ x ∈ tr, x ∉ P0) →
      P0 ⊆ out.processed ∧ out.trace.Nodup ∧
      ∀ x ∈ out.trace, x ∈ out.processed ∧ x ∉ P0 := by
  intro l
  induction l with
  | nil =>
    intro acc procd tr out h hP htr htrp htrP
    simp only [nestedLoop, Option.some.injEq] at h
    subst h
    exact ⟨hP, htr, fun x hx => ⟨htrp x hx, htrP x hx⟩⟩
  | cons q rest ih =>
    intro acc procd tr out h hP htr htrp htrP
    obtain ⟨nm, cts⟩ := q
    simp only [nestedLoop] at h
    split at h
    · cases hr : recur nm procd with
      | none => rw [hr] at h; cases h
      | some out1 =>
        rw [hr] at h
        obtain ⟨hmono1, hnd1, htr1⟩ := hrec nm procd out1 hr
        refine ih _ _ _ _ h (hP.trans hmono1) ?_ ?_ ?_
        · refine List.Nodup.append htr hnd1 ?_
          intro x hx1 hx2
          exact (htr1 x hx2).2 (htrp x hx1)
        · intro x hx
          rcases List.mem_append.mp hx with hx | hx
          · exact hmono1 (htrp x hx)
          · exact (htr1 x hx).1
        · intro x hx
          rcases List.mem_append.mp hx with hx | hx
          · exact htrP x hx
          · exact fun hxP => (htr1 x hx).2 (hP hxP)
    · exact ih _ _ _ _ h hP htr htrp htrP

lemma nestedLoop_isSome (db : DB) (fuel : Nat)
    (recur : String → List String → Option CollectOut) (ct : Int)
    (hrecSome : ∀ nm procd, remaining db procd + 1 ≤ fuel → (recur nm procd).isSome)
    (hrecMono : ∀ nm procd out, recur nm procd = some out → procd ⊆ out.processed) :
    ∀ (l : List (String × Int)) (acc : List RawEvent) (procd tr : List String),
      remaining db procd + 1 ≤ fuel →
      (nestedLoop recur ct l acc procd tr).isSome := by
  intro l
  induction l with
  | nil => intro acc procd tr h; simp [nestedLoop]
  | cons q rest ih =>
    intro acc procd tr h
    obtain ⟨nm, cts⟩ := q
    simp only [nestedLoop]
    split
    · cases hr : recur nm procd with
      | none =>
        exfalso
        have := hrecSome nm procd h
        rw [hr] at this
        cases this
      | some out1 =>
        have hmono := hrecMono nm procd out1 hr
        have hle : remaining db out1.processed + 1 ≤ fuel :=
          le_trans (Nat.add_le_add_right (remaining_mono db hmono) 1) h
        exact ih _ _ _ hle
    · exact ih _ _ _ h

lemma retrieve_spec (db : DB) :
    ∀ (fuel : Nat) (stackname : String) (rct : Option Int)
      (processed : List String) (out : CollectOut),
      retrieve_cf_events db fuel stackname rct processed = some out →
      processed ⊆ out.processed ∧ out.trace.Nodup ∧
      ∀ x ∈ out.trace, x ∈ out.processed ∧ x ∉ processed := by
  intro fuel
  induction fuel with
  | zero =>
    intro s rct p out h
    simp [retrieve_cf_events] at h
  | succ fuel ih =>
    intro s rct p out h
    simp only [retrieve_cf_events] at h
    by_cases hs : s = ""
    · rw [if_pos hs, Option.some.injEq] at h
      subst h
      exact ⟨fun x hx => hx, by simp, by simp⟩
    rw [if_neg hs] at h
    by_cases hp : s ∈ p
    · rw [if_pos hp, Option.some.injEq] at h
      subst h
      exact ⟨fun x hx => hx, by simp, by simp⟩
    rw [if_neg hp] at h
    split at h
    · rw [Option.some.injEq] at h
      subst h
      refine ⟨fun x hx => List.mem_cons_of_mem _ hx, by simp, ?_⟩
      intro x hx
      simp only [List.mem_singleton] at hx
      subst hx
      exact ⟨List.mem_cons_self _ _, hp⟩
    · split at h
      · rw [Option.some.injEq] at h
        subst h
        refine ⟨fun x hx => List.mem_cons_of_mem _ hx, by simp, ?_⟩
        intro x hx
        simp only [List.mem_singleton] at hx
        subst hx
        exact ⟨List.mem_cons_self _ _, hp⟩
      · next raw ct hoc =>
        have hspec := nestedLoop_spec
          (fun nested_stack procd => retrieve_cf_events db fuel nested_stack (some ct) procd)
          ct p (fun nm procd out1 hr => ih nm (some ct) procd out1 hr)
          _ _ _ _ _ h
          (fun x hx => List.mem_cons_of_mem _ hx)
          (by simp)
          (by intro x hx; simp only [List.mem_singleton] at hx; subst hx
              exact List.mem_cons_self _ _)
          (by intro x hx; simp only [List.mem_singleton] at hx; subst hx; exact hp)
        exact hspec

lemma retrieve_isSome (db : DB) :
    ∀ (fuel : Nat) (stackname : String) (rct : Option Int) (processed : List String),
      remaining db processed + 1 ≤ fuel →
      (retrieve_cf_events db fuel stackname rct processed).isSome := by
  intro fuel
  induction fuel with
  | zero => intro s rct p h; omega
  | succ fuel ih =>
    intro s rct p h
    simp only [retrieve_cf_events]
    by_cases hs : s = ""
    · rw [if_pos hs]; rfl
    rw [if_neg hs]
    by_cases hp : s ∈ p
    · rw [if_pos hp]; rfl
    rw [if_neg hp]
    split
    · rfl
    · next raw hlk =>
      split
      · rfl
      · next ct hoc =>
        have hkey : s ∈ db.map Prod.fst := lookupD_mem_keys s db raw hlk
        have hlt : remaining db (s :: p) < remaining db p := remaining_lt db s p hkey hp
        refine nestedLoop_isSome db fuel
          (fun nested_stack procd => retrieve_cf_events db fuel nested_stack (some ct) procd)
          ct (fun nm procd hh => ih nm (some ct) procd hh)
          (fun nm procd out1 hr => (retrieve_spec db fuel nm (some ct) procd out1 hr).1)
          _ _ _ _ ?_
        omega

lemma keep_fold_bounds (stackname : String) (start_time complete_time : Int) :
    ∀ (l : List RawEvent) (acc : List RawEvent × List (String × Int)),
      (∀ e ∈ acc.1, start_time ≤ e.Timestamp ∧ e.Timestamp ≤ complete_time) →
      ∀ e ∈ (l.foldl (keep_step stackname start_time complete_time) acc).1,
        start_time ≤ e.Timestamp ∧ e.Timestamp ≤ complete_time := by
  intro l
  induction l with
  | nil => intro acc hacc e he; exact hacc e he
  | cons x xs ih =>
    intro acc hacc e he
    simp only [List.foldl_cons] at he
    refine ih _ ?_ e he
    intro e2 he2
    unfold keep_step at he2
    split at he2
    · next hwin =>
      simp only at he2
      rcases List.mem_append.mp he2 with h2 | h2
      · exact hacc e2 h2
      · simp only [List.mem_singleton] at h2
        subst h2
        exact hwin
    · exact hacc e2 he2

lemma get_stack_window_bounds (stackname : String) (raw : List RawEvent)
    (se ce : RawEvent)
    (hs : find_start_event raw = some se)
    (hc : find_complete_event stackname raw = some ce) :
    ∀ e ∈ (get_stack_creation_events stackname raw).1,
      se.Timestamp ≤ e.Timestamp ∧ e.Timestamp ≤ ce.Timestamp := by
  intro e he
  unfold get_stack_creation_events at he
  rw [hs, hc] at he
  exact keep_fold_bounds stackname se.Timestamp ce.Timestamp _ _ (by simp) e he

lemma get_stack_complete_some (stackname : String) (raw : List RawEvent)
    (se ce : RawEvent)
    (hs : find_start_event raw = some se)
    (hc : find_complete_event stackname raw = some ce) :
    (get_stack_creation_events stackname raw).2.2 = some ce.Timestamp := by
  unfold get_stack_creation_events
  rw [hs, hc]

lemma apply_event_duration_invariant (st rs : String) (ts : Int) (rd : ResourceData)
    (h : durationInvariant rd) :
    durationInvariant (apply_event_to_record st rs ts rd) := by
  unfold apply_event_to_record
  split
  · split
    · exact h
    · split
      · exact h
      · split
        · exact h
        · exact h
  · split
    · split
      · next i s2 hi hs2 =>
        exact Or.inr ⟨s2 - i, ts - s2, rfl, rfl, by rw [Option.some.injEq]; ring⟩
      · exact h
    · exact h

lemma update_fold_invariant :
    ∀ (evts : List RawEvent) (data : Data),
      (∀ key, durationInvariant ((lookupD key data).getD emptyResourceData)) →
      ∀ key, durationInvariant
        ((lookupD key (evts.foldl (fun d e => update_data_for_event e d) data)).getD
          emptyResourceData) := by
  intro evts
  induction evts with
  | nil => intro data h key; exact h key
  | cons e rest ih =>
    intro data h key
    simp only [List.foldl_cons]
    refine ih _ ?_ key
    intro k
    unfold update_data_for_event
    rw [lookupD_dictInsert]
    split
    · simp only [Option.getD_some]
      exact apply_event_duration_invariant _ _ _ _ (h _)
    · exact h k

lemma process_step_inv (data : Data) (start_time : Int) (s l : String)
    (st : List String × List TraceOut) (event : RawEvent)
    (h1 : st.2.countP (traceForPair s l) ≤ 1)
    (h2 : 1 ≤ st.2.countP (traceForPair s l) → (s ++ "/" ++ l) ∈ st.1) :
    (process_step data start_time st event).2.countP (traceForPair s l) ≤ 1 ∧
    (1 ≤ (process_step data start_time st event).2.countP (traceForPair s l) →
      (s ++ "/" ++ l) ∈ (process_step data start_time st event).1) := by
  unfold process_step
  split
  · exact ⟨h1, h2⟩
  · next rd hrd =>
    split
    · split
      · exact ⟨h1, h2⟩
      · next hB =>
        split
        · exact ⟨h1, h2⟩
        · next hC =>
          simp only
          by_cases hmatch : event.StackName = s ∧ event.LogicalResourceId = l
          · have htr : traceForPair s l (construct_event_trace start_time rd event) = true := by
              simp [traceForPair, construct_event_trace, hmatch.1, hmatch.2]
            have hcount0 : st.2.countP (traceForPair s l) = 0 := by
              by_contra hc
              have hone : 1 ≤ st.2.countP (traceForPair s l) := Nat.one_le_iff_ne_zero.mpr hc
              exact hB (by rw [hmatch.1, hmatch.2]; exact h2 hone)
            have hcnt : (st.2 ++ [construct_event_trace start_time rd event]).countP
                (traceForPair s l) = 1 := by
              simp [List.countP_append, List.countP_cons, htr, hcount0]
            refine ⟨le_of_eq hcnt, fun _ => ?_⟩
            rw [hmatch.1, hmatch.2]
            exact List.mem_cons_self _ _
          · have htr : traceForPair s l (construct_event_trace start_time rd event) = false := by
              simp only [traceForPair, construct_event_trace]
              simpa using hmatch
            have hcnt : (st.2 ++ [construct_event_trace start_time rd event]).countP
                (traceForPair s l) = st.2.countP (traceForPair s l) := by
              simp [List.countP_append, List.countP_cons, htr]
            rw [hcnt]
            exact ⟨h1, fun hone => List.mem_cons_of_mem _ (h2 hone)⟩
    · exact ⟨h1, h2⟩

lemma process_fold_inv (data : Data) (start_time : Int) (s l : String) :
    ∀ (evts : List RawEvent) (st : List String × List TraceOut),
      st.2.countP (traceForPair s l) ≤ 1 →
      (1 ≤ st.2.countP (traceForPair s l) → (s ++ "/" ++ l) ∈ st.1) →
      ((evts.foldl (process_step data start_time) st).2.countP (traceForPair s l) ≤ 1) := by
  intro evts
  induction evts with
  | nil => intro st h1 h2; exact h1
  | cons e rest ih =>
    intro st h1 h2
    simp only [List.foldl_cons]
    obtain ⟨h1', h2'⟩ := process_step_inv data start_time s l st e h1 h2
    exact ih _ h1' h2'

/-- C2: `get_resource_category` is claimed to do longest-prefix
classification, so a type beginning with "AWS::EC2::VPC" should be
"network".  The code checks the compute bucket first and its entry
"AWS::EC2::" already matches, so the type is classified "compute" even
though "AWS::EC2::VPC" is literally an entry of the network table (that
entry, like the other EC2-specific network entries, is unreachable). -/
theorem c2_vpc_classified_compute :
    get_resource_category "AWS::EC2::VPC" = "compute" ∧
    "AWS::EC2::VPC" ∈ network_resources ∧
    ("compute" : String) ≠ "network" := by
  refine ⟨by rfl, by simp [network_resources], by decide⟩

/-- C3 (Scenario A): a generic CREATE_IN_PROGRESS at T-2, a
"Resource creation Initiated" CREATE_IN_PROGRESS at T, and a
CREATE_COMPLETE at T+10 for one (unit, logical id) key produce
identified = T-2, start = T, end = T+10, and durations 2 / 10 / 12. -/
theorem c3_scenario_a (T : Int) :
    ∃ rd, lookupD ("stk", "res")
        ([c3ev1 T, c3ev2 T, c3ev3 T].foldl (fun d e => update_data_for_event e d) []) =
        some rd ∧
      rd.identified = some (T - 2) ∧ rd.start = some T ∧ rd.end_ = some (T + 10) ∧
      rd.duration_i2s = some 2 ∧ rd.duration_s2e = some 10 ∧ rd.duration = some 12 := by
  refine ⟨_, rfl, rfl, rfl, rfl, ?_, ?_, ?_⟩
  · show some (T - (T - 2)) = some 2
    rw [Option.some.injEq]
    ring
  · show some (T + 10 - T) = some 10
    rw [Option.some.injEq]
    ring
  · show some (T + 10 - (T - 2)) = some 12
    rw [Option.some.injEq]
    ring

/-- C4: after applying the timing state machine to any event sequence
(starting from the empty map), every record satisfies the duration
invariant — the three duration fields are all unset or all set, and in the
latter case `duration = duration_i2s + duration_s2e` exactly.  Every prefix
of a run is itself an event sequence, so this covers every intermediate
state as well. -/
theorem c4_duration_invariant (events : List RawEvent) (key : String × String) :
    durationInvariant
      ((lookupD key (events.foldl (fun d e => update_data_for_event e d) ([] : Data))).getD
        emptyResourceData) := by
  refine update_fold_invariant events [] (fun k => ?_) key
  exact Or.inl ⟨rfl, rfl, rfl⟩

/-- C6: for any event list, start time and initial timing map, the second
pass of `process_events` emits at most one trace per
(unit, logical id) pair, even if the events contain several
CREATE_COMPLETE entries for that pair. -/
theorem c6_no_duplicate_traces (events : List RawEvent) (start_time : Int)
    (data0 : Data) (s l : String) :
    (process_events events start_time data0).countP (traceForPair s l) ≤ 1 := by
  unfold process_events
  exact process_fold_inv _ start_time s l events ([], []) (by simp) (by simp)

/-- C7: with fuel at least `remaining db processed + 1` (one more than the
number of stacks the event source knows that are not yet processed), the
collector returns (terminates, never exhausting the fuel that models its
general recursion) — even on cyclic nested-stack reference graphs — and its
fetch trace contains each stack name at most once. -/
theorem c7_cycle_safe_and_terminates (db : DB) (stackname : String)
    (rct : Option Int) (processed : List String) (fuel : Nat)
    (h : remaining db processed + 1 ≤ fuel) :
    ∃ out, retrieve_cf_events db fuel stackname rct processed = some out ∧
      out.trace.Nodup := by
  obtain ⟨out, hout⟩ := Option.isSome_iff_exists.mp
    (retrieve_isSome db fuel stackname rct processed h)
  exact ⟨out, hout, (retrieve_spec db fuel stackname rct processed out hout).2.1⟩

/-- C7 witness: on the cyclic event source `dbCyc` (stacks A and B
reference each other) the bound 3 = remaining + 1 suffices and the trace is
duplicate-free. -/
theorem c7_cycle_safe_and_terminates_witness :
    remaining dbCyc [] + 1 ≤ 3 ∧
    ∃ out, retrieve_cf_events dbCyc 3 "A" none [] = some out ∧ out.trace.Nodup :=
  ⟨by decide, c7_cycle_safe_and_terminates dbCyc "A" none [] 3 (by decide)⟩

/-- C10: the collector adds a stack name to the shared processed set before
issuing its fetch, so every fetched name (trace entry) is marked processed in
the output, the fetch trace never repeats a name within one run, a re-entry
for an already-processed name returns an empty list immediately without
fetching, and a name whose fetch raised is still recorded processed. -/
theorem c10_processed_before_fetch (fuel : Nat) (db : DB) (stackname : String)
    (rct : Option Int) (processed : List String) (out : CollectOut)
    (h : retrieve_cf_events db fuel stackname rct processed = some out) :
    out.trace.Nodup ∧
    (∀ x ∈ out.trace, x ∈ out.processed ∧ x ∉ processed) ∧
    (stackname ∈ processed → out = ⟨some [], processed, []⟩) ∧
    (stackname ∉ processed → stackname ≠ "" → lookupD stackname db = none →
      out = ⟨none, stackname :: processed, [stackname]⟩) := by
  obtain ⟨hsub, hnd, htr⟩ := retrieve_spec db fuel stackname rct processed out h
  refine ⟨hnd, htr, ?_, ?_⟩
  · intro hmem
    cases fuel with
    | zero => simp [retrieve_cf_events] at h
    | succ fuel =>
      simp only [retrieve_cf_events] at h
      by_cases hs : stackname = ""
      · rw [if_pos hs, Option.some.injEq] at h
        exact h.symm
      · rw [if_neg hs, if_pos hmem, Option.some.injEq] at h
        exact h.symm
  · intro hnm hne hlk
    cases fuel with
    | zero => simp [retrieve_cf_events] at h
    | succ fuel =>
      simp only [retrieve_cf_events] at h
      rw [if_neg hne, if_neg hnm, hlk, Option.some.injEq] at h
      exact h.symm

/-- C10 witness: re-entry for the already-processed stack "A" on the cyclic
source returns the empty result without a fetch. -/
theorem c10_processed_before_fetch_witness :
    retrieve_cf_events dbCyc 1 "A" none ["A"] =
      some ⟨some [], ["A"], []⟩ ∧
    (([] : List String).Nodup ∧
      (∀ x ∈ ([] : List String), x ∈ ["A"] ∧ x ∉ ["A"]) ∧
      ("A" ∈ ["A"] → (⟨some [], ["A"], []⟩ : CollectOut) = ⟨some [], ["A"], []⟩) ∧
      ("A" ∉ ["A"] → "A" ≠ "" → lookupD "A" dbCyc = none →
        (⟨some [], ["A"], []⟩ : CollectOut) = ⟨none, "A" :: ["A"], ["A"]⟩)) :=
  ⟨by decide,
   c10_processed_before_fetch 1 dbCyc "A" none ["A"] ⟨some [], ["A"], []⟩ (by decide)⟩

/-- C8: the collector fails softly — an empty stack name, an
already-processed stack, or a stack whose (successfully fetched) event list
lacks the "User Initiated" start event or the matching stack-typed complete
event all yield an empty event list without raising. -/
theorem c8_soft_empty_result (fuel : Nat) (db : DB) (stackname : String)
    (rct : Option Int) (processed : List String)
    (hfuel : 1 ≤ fuel)
    (h : stackname = "" ∨ stackname ∈ processed ∨
      ∃ raw, lookupD stackname db = some raw ∧
        (find_start_event raw = none ∨ find_complete_event stackname raw = none)) :
    ∃ out, retrieve_cf_events db fuel stackname rct processed = some out ∧
      out.events = some [] := by
  cases fuel with
  | zero => omega
  | succ fuel =>
    simp only [retrieve_cf_events]
    by_cases hs : stackname = ""
    · rw [if_pos hs]
      exact ⟨_, rfl, rfl⟩
    rw [if_neg hs]
    by_cases hp : stackname ∈ processed
    · rw [if_pos hp]
      exact ⟨_, rfl, rfl⟩
    rw [if_neg hp]
    rcases h with h | h | ⟨raw, hlk, hmiss⟩
    · exact absurd h hs
    · exact absurd h hp
    have hgsc : get_stack_creation_events stackname raw = ([], [], none) := by
      unfold get_stack_creation_events
      cases hfs : find_start_event raw with
      | none => cases find_complete_event stackname raw <;> rfl
      | some se =>
        cases hfc : find_complete_event stackname raw with
        | none => rfl
        | some ce =>
          rcases hmiss with hm | hm
          · rw [hfs] at hm
            cases hm
          · rw [hfc] at hm
            cases hm
    split
    · next heq =>
      rw [hlk] at heq
      cases heq
    · next raw2 heq =>
      rw [hlk] at heq
      injection heq with heq2
      subst heq2
      rw [hgsc]
      cases rct with
      | none => exact ⟨_, rfl, rfl⟩
      | some ct => exact ⟨_, rfl, rfl⟩

/-- C8 witness: stack W's events lack both window events; the collector
returns an empty list without raising. -/
theorem c8_soft_empty_result_witness :
    (1 ≤ 1 ∧ (find_start_event [wEv1] = none ∨ find_complete_event "W" [wEv1] = none)) ∧
    ∃ out, retrieve_cf_events dbW 1 "W" none [] = some out ∧ out.events = some [] :=
  ⟨⟨by decide, by decide⟩,
   c8_soft_empty_result 1 dbW "W" none [] (by decide)
     (Or.inr (Or.inr ⟨[wEv1], by decide, by decide⟩))⟩

/-- C1 counterexample: stack S is collected with a caller-supplied root
completion time of 20, S's own window events give start 0 and local complete
10, and the event gS3 at timestamp 15 — inside [0, 20] but outside [0, 10] —
is NOT in the returned list: the unit's own event window is bounded by the
locally discovered completion time, not by the caller-supplied one. -/
theorem c1_counterexample :
    retrieve_cf_events dbS 2 "S" (some 20) [] =
      some ⟨some [gS1, gS2], ["S"], ["S"]⟩ ∧
    find_start_event [gS1, gS2, gS3] = some gS1 ∧
    find_complete_event "S" [gS1, gS2, gS3] = some gS2 ∧
    gS1.Timestamp ≤ gS3.Timestamp ∧ gS3.Timestamp ≤ 20 ∧
    gS3 ∉ [gS1, gS2] :=
  ⟨by decide, by decide, by decide, by decide, by decide, by decide⟩

/-- C1 (amended): whatever `root_complete_time` the caller supplies, the
collector's result starts with exactly the unit's own kept events as
computed by `get_stack_creation_events`, and each of those events is bounded
by the unit's locally discovered window [start_event, complete_event];
the caller-supplied time only gates and propagates to the nested recursion. -/
theorem c1_window_always_local (fuel : Nat) (db : DB) (stackname : String)
    (rct : Option Int) (processed : List String) (raw : List RawEvent)
    (se ce : RawEvent) (out : CollectOut)
    (hne : stackname ≠ "") (hnp : stackname ∉ processed)
    (hlk : lookupD stackname db = some raw)
    (hs : find_start_event raw = some se)
    (hc : find_complete_event stackname raw = some ce)
    (h : retrieve_cf_events db (fuel + 1) stackname rct processed = some out) :
    ∃ rest, out.events = some ((get_stack_creation_events stackname raw).1 ++ rest) ∧
      ∀ e ∈ (get_stack_creation_events stackname raw).1,
        se.Timestamp ≤ e.Timestamp ∧ e.Timestamp ≤ ce.Timestamp := by
  simp only [retrieve_cf_events] at h
  rw [if_neg hne, if_neg hnp] at h
  split at h
  · next heq =>
    rw [hlk] at heq
    cases heq
  · next raw2 heq =>
    rw [hlk] at heq
    injection heq with heq2
    subst heq2
    have hsc : (get_stack_creation_events stackname raw).2.2 = some ce.Timestamp :=
      get_stack_complete_some stackname raw se ce hs hc
    split at h
    · next hnone =>
      rw [hsc] at hnone
      cases rct with
      | none => cases hnone
      | some ct => cases hnone
    · next ct hoc =>
      obtain ⟨rest, hrest⟩ := nestedLoop_events _ ct _ _ _ _ _ h
      exact ⟨rest, hrest, get_stack_window_bounds stackname raw se ce hs hc⟩

/-- C1 amended witness: collecting S with root completion 20 returns a list
beginning with S's own kept events, themselves bounded by S's local window
[0, 10]. -/
theorem c1_window_always_local_witness :
    (lookupD "S" dbS = some [gS1, gS2, gS3] ∧
     find_start_event [gS1, gS2, gS3] = some gS1 ∧
     find_complete_event "S" [gS1, gS2, gS3] = some gS2) ∧
    ∃ rest, (⟨some [gS1, gS2], ["S"], ["S"]⟩ : CollectOut).events =
        some ((get_stack_creation_events "S" [gS1, gS2, gS3]).1 ++ rest) ∧
      ∀ e ∈ (get_stack_creation_events "S" [gS1, gS2, gS3]).1,
        gS1.Timestamp ≤ e.Timestamp ∧ e.Timestamp ≤ gS2.Timestamp :=
  ⟨⟨by decide, by decide, by decide⟩,
   c1_window_always_local 1 dbS "S" (some 20) [] [gS1, gS2, gS3] gS1 gS2
     ⟨some [gS1, gS2], ["S"], ["S"]⟩ (by decide) (by decide) (by decide)
     (by decide) (by decide) (by decide)⟩

/-- C5 counterexample: stack P has a valid start event (timestamp 0) and a
valid matching complete event (timestamp 10), yet the recursive collector's
result for P contains the nested stack C's completion event at timestamp 50,
outside P's window — the collected list is not bounded by P's window. -/
theorem c5_counterexample :
    find_start_event [eP1, eP2, eP3] = some eP1 ∧
    find_complete_event "P" [eP1, eP2, eP3] = some eP3 ∧
    retrieve_cf_events dbPC 3 "P" none [] =
      some ⟨some [eP1, eP2, eP3, fC1, fC2], ["C", "P"], ["P", "C"]⟩ ∧
    fC2.Timestamp = 50 ∧ eP3.Timestamp = 10 ∧
    ¬ (fC2.Timestamp ≤ eP3.Timestamp) :=
  ⟨by decide, by decide, by decide, by decide, by decide, by decide⟩

/-- C5 (amended): window soundness holds for the unit's own scan — when the
valid start and matching complete events exist, every event kept by
`get_stack_creation_events` for that unit satisfies
start_time ≤ timestamp ≤ complete_time.  The recursive collector then
appends nested units' events, which are bounded only by their own windows. -/
theorem c5_own_window_soundness (stackname : String) (raw : List RawEvent)
    (se ce : RawEvent)
    (hs : find_start_event raw = some se)
    (hc : find_complete_event stackname raw = some ce) :
    ∀ e ∈ (get_stack_creation_events stackname raw).1,
      se.Timestamp ≤ e.Timestamp ∧ e.Timestamp ≤ ce.Timestamp :=
  get_stack_window_bounds stackname raw se ce hs hc

/-- C5 amended witness: P's own kept events all lie within [0, 10]. -/
theorem c5_own_window_soundness_witness :
    (find_start_event [eP1, eP2, eP3] = some eP1 ∧
     find_complete_event "P" [eP1, eP2, eP3] = some eP3) ∧
    ∀ e ∈ (get_stack_creation_events "P" [eP1, eP2, eP3]).1,
      eP1.Timestamp ≤ e.Timestamp ∧ e.Timestamp ≤ eP3.Timestamp :=
  ⟨⟨by decide, by decide⟩,
   c5_own_window_soundness "P" [eP1, eP2, eP3] eP1 eP3 (by decide) (by decide)⟩

/-- C9: with the resource "Web" first identified 86405 s (1 day + 5 s) after
the run's start instant, the emitted trace's `base` is 5, not 86405:
`(identified - start_time).seconds` is the seconds-of-day component of the
timedelta, so elapsed times of a day or more are truncated. -/
theorem c9_base_offset_truncates_days :
    (lookupD ("root", "Web")
        (c9events.foldl (fun d e => update_data_for_event e d) [])).map
      ResourceData.identified = some (some 86405) ∧
    (process_events c9events 0 []).map TraceOut.base = [5] ∧
    (5 : Int) ≠ 86405 - 0 :=
  ⟨by decide, by decide, by decide⟩
